import Mathlib

/-!
Verification development for the MoBI-project XDF-to-BIDS conversion code.

The embedding covers:
* the stream classifier and raw-assembly of `load_and_prepare_raw`
  (`code/xdf2bids_group.py`) and the classifier of `inspect_xdf_file`
  (`code/xdf_debugging.py`);
* the temporal aligner, annotation extractor, payload parser and amplitude
  heuristic of the pipeline variant described in the specification whose
  source file is not among the provided sources (modelled from the spec);
* the analytic montage construction of `code/Create_montage_PRO-64x.py`.

Machine floats are modelled by rationals, numeric sample matrices by lists of
rows, strings by lists of characters.
-/

namespace MoBI

/-! ## Stream data model -/

/-- A loaded XDF stream as consumed by the pipeline: declared type and name
tags, channel labels, nominal sample rate, the numeric sample matrix
(samples × channels, as loaded), the timestamp vector, and (for marker
streams) the string payload rows of `time_series`. -/
structure XStream where
  typeTag : List Char
  nameTag : List Char
  chLabels : List (List Char)
  srate : ℚ
  samples : List (List ℚ)
  timeStamps : List ℚ
  payloadRows : List (List (List Char))
deriving DecidableEq

/-- Lower-casing of a character list, mirroring `str.lower()`. -/
def lcase (l : List Char) : List Char := l.map Char.toLower

/-- Substring containment, mirroring the Python `in` operator on strings. -/
def containsSub (pat l : List Char) : Bool :=
  l.tails.any (fun t => pat.isPrefixOf t)

/-- Test from `xdf2bids_group.load_and_prepare_raw`:
`'eeg' in stream_type or 'eeg' in stream_name` on lower-cased tags. -/
def eegMatch (s : XStream) : Bool :=
  containsSub "eeg".data (lcase s.typeTag) || containsSub "eeg".data (lcase s.nameTag)

/-- Test from `xdf2bids_group.load_and_prepare_raw`:
`'marker' in stream_type or 'marker' in stream_name` on lower-cased tags. -/
def markerMatch (s : XStream) : Bool :=
  containsSub "marker".data (lcase s.typeTag) || containsSub "marker".data (lcase s.nameTag)

/-- One iteration of the classification loop of
`xdf2bids_group.load_and_prepare_raw` (lines 122–129): an `eeg` match
overwrites the eeg slot, otherwise (`elif`) a `marker` match overwrites the
marker slot. -/
def classifyStep (acc : Option XStream × Option XStream) (s : XStream) :
    Option XStream × Option XStream :=
  if eegMatch s then (some s, acc.2)
  else if markerMatch s then (acc.1, some s)
  else acc

/-- The classification loop of `xdf2bids_group.load_and_prepare_raw`. -/
def classifyGroup (streams : List XStream) : Option XStream × Option XStream :=
  streams.foldl classifyStep (none, none)

/-- Type-tag-only test of `xdf_debugging.inspect_xdf_file`:
`'eeg' in stream_type.lower()`. -/
def typeEeg (s : XStream) : Bool := containsSub "eeg".data (lcase s.typeTag)

/-- Type-tag-only test of `xdf_debugging.inspect_xdf_file`:
`'marker' in stream_type.lower()`. -/
def typeMarker (s : XStream) : Bool := containsSub "marker".data (lcase s.typeTag)

/-- The classification loop of `xdf_debugging.inspect_xdf_file` (lines 62–82):
each slot is filled by the first stream whose type tag matches, thanks to the
`and eeg_stream is None` / `and marker_stream is None` guards; the two tests
are independent `if` statements. -/
def inspectClassify (streams : List XStream) : Option XStream × Option XStream :=
  (streams.find? typeEeg, streams.find? typeMarker)

/-! ## The MNE raw object produced by the group pipeline -/

/-- The parts of the MNE `Raw` object built by `load_and_prepare_raw` that the
claims are about: channel names, sample rate, the transposed data matrix, and
the annotation triples (onset, duration, description). -/
structure Raw where
  chNames : List (List Char)
  sfreq : ℚ
  data : List (List ℚ)
  annots : List (ℚ × ℚ × List Char)
deriving DecidableEq

/-- Description extraction of `load_and_prepare_raw` (lines 170–173):
`str(marker_value[0])` when the sample row is a nonempty list, the printed
form of the empty row otherwise. -/
def rowDesc (row : List (List Char)) : List Char :=
  match row with
  | v :: _ => v
  | [] => "[]".data

/-- Embedding of `xdf2bids_group.load_and_prepare_raw` (lines 107–192),
restricted to the in-memory computation: classify the streams, fail (return
`none`) when no eeg stream was found, build the raw object from the eeg
stream, and, only when a marker stream was found, attach one zero-duration
annotation per marker with onset relative to the first eeg timestamp.
Reading the first eeg timestamp of an empty timestamp vector raises an
`IndexError` in the source, caught by the surrounding `except` which returns
`None`; the montage file application is filesystem I/O and is omitted. -/
def loadAndPrepareRaw (streams : List XStream) : Option Raw :=
  match classifyGroup streams with
  | (none, _) => none
  | (some eeg, mk?) =>
    let raw0 : Raw := ⟨eeg.chLabels, eeg.srate, eeg.samples.transpose, []⟩
    match mk? with
    | none => some raw0
    | some mk =>
      match eeg.timeStamps with
      | [] => none
      | t0 :: _ =>
        some { raw0 with
          annots := (mk.timeStamps.zip mk.payloadRows).map
            (fun p => (p.1 - t0, 0, rowDesc p.2)) }

/-! ## Characterization of the group classifier -/

/-- Marker-slot predicate of the group loop: the `elif` fires only when the
eeg test failed. -/
def markerOnly (s : XStream) : Bool := !eegMatch s && markerMatch s

theorem classifyGroup_foldl (l : List XStream) (acc : Option XStream × Option XStream) :
    l.foldl classifyStep acc =
      ((l.reverse.find? eegMatch).rec acc.1 some,
       (l.reverse.find? markerOnly).rec acc.2 some) := by
  induction l generalizing acc with
  | nil => simp
  | cons s l ih =>
    rw [List.foldl_cons, ih]
    rw [List.reverse_cons, List.find?_append, List.find?_append]
    rcases hf : l.reverse.find? eegMatch with _ | x
    all_goals rcases hg : l.reverse.find? markerOnly with _ | y
    all_goals
      simp only [hf, hg, Option.orElse, classifyStep, markerOnly]
    all_goals rcases he : eegMatch s with _ | _
    all_goals rcases hm : markerMatch s with _ | _
    all_goals simp [markerOnly, List.find?, he, hm]

theorem classifyGroup_spec (streams : List XStream) :
    classifyGroup streams =
      (streams.reverse.find? eegMatch, streams.reverse.find? markerOnly) := by
  rw [classifyGroup, classifyGroup_foldl]
  rcases streams.reverse.find? eegMatch with _ | x
  all_goals rcases streams.reverse.find? markerOnly with _ | y
  all_goals rfl

/-! ## Temporal aligner (modelled from the spec)

The pipeline variant holding the temporal aligner, annotation extractor,
payload parser and amplitude heuristic is not among the provided source
files (the spec counts 883 repository lines, the provided files hold 582);
the definitions below are modelled from the specification text of §4.2,
§4.5 and §4.6. -/

/-- Alignment failure of the spec's error taxonomy (§7). -/
inductive AlignError where
  | alignmentEmpty
deriving DecidableEq

/-- Modelled from the spec: left-biased insertion index of `t` into a sorted
timestamp vector (the missing variant's left-biased search); for a sorted
vector this is the number of timestamps strictly below `t`. -/
def searchLeft (ts : List ℚ) (t : ℚ) : Nat :=
  ts.countP (fun x => decide (x < t))

/-- Modelled from the spec: right-biased insertion index of `t` into a sorted
timestamp vector (the missing variant's right-biased search); for a sorted
vector this is the number of timestamps at or below `t`. -/
def searchRight (ts : List ℚ) (t : ℚ) : Nat :=
  ts.countP (fun x => decide (x ≤ t))

/-- The aligned Recording of the spec's data model (§3), restricted to the
parts the claims are about: cropped sample matrix (channels × samples),
cropped timestamp vector, and the time origin. -/
structure Recording where
  data : List (List ℚ)
  timeStamps : List ℚ
  timeOrigin : ℚ
deriving DecidableEq

/-- Modelled from the spec: the Temporal Aligner of §4.2, absent from the
provided sources. The marker span is read off the first and last marker
timestamps; crop bounds are the left-biased index of the span start and the
right-biased index of the span end; an empty window is reported as
`AlignmentEmptyError`, never returned as an empty Recording. -/
def alignCrop (data : List (List ℚ)) (eegTs mkTs : List ℚ) :
    Except AlignError Recording :=
  match mkTs.head?, mkTs.getLast? with
  | some t0, some tE =>
    if searchLeft eegTs t0 < searchRight eegTs tE then
      .ok ⟨data.map (fun row =>
             (row.drop (searchLeft eegTs t0)).take
               (searchRight eegTs tE - searchLeft eegTs t0)),
           (eegTs.drop (searchLeft eegTs t0)).take
             (searchRight eegTs tE - searchLeft eegTs t0),
           ((eegTs.drop (searchLeft eegTs t0)).take
             (searchRight eegTs tE - searchLeft eegTs t0)).headD 0⟩
    else .error .alignmentEmpty
  | _, _ => .error .alignmentEmpty

theorem searchLeft_le_iff (ts : List ℚ) (t : ℚ) (hs : ts.Pairwise (· ≤ ·)) :
    ∀ k (hk : k < ts.length), (searchLeft ts t ≤ k ↔ t ≤ ts.get ⟨k, hk⟩) := by
  induction ts with
  | nil => intro k hk; simp at hk
  | cons x rest ih =>
    rw [List.pairwise_cons] at hs
    obtain ⟨hx, hrest⟩ := hs
    intro k hk
    rcases k with _ | k
    · rcases lt_or_le x t with h | h
      · have h1 : searchLeft (x :: rest) t = searchLeft rest t + 1 := by
          simp [searchLeft, List.countP_cons, h]
        rw [h1]
        simp only [List.get]
        constructor
        · intro hc; omega
        · intro hc; exact absurd hc (not_le.2 h)
      · have hz : searchLeft rest t = 0 := by
          rw [searchLeft, List.countP_eq_zero]
          intro a ha
          simp only [decide_eq_true_eq]
          exact not_lt.2 (le_trans h (hx a ha))
        have h1 : searchLeft (x :: rest) t = searchLeft rest t := by
          simp [searchLeft, List.countP_cons, not_lt.2 h]
        rw [h1, hz]
        simp only [List.get]
        simp [h]
    · rcases lt_or_le x t with h | h
      · have : searchLeft (x :: rest) t = searchLeft rest t + 1 := by
          simp [searchLeft, List.countP_cons, h]
        rw [this]
        simp only [List.get]
        rw [Nat.add_le_add_iff_right]
        exact ih hrest k (Nat.lt_of_succ_lt_succ hk)
      · have hz : searchLeft (x :: rest) t = 0 := by
          rw [searchLeft, List.countP_eq_zero]
          intro a ha
          simp only [decide_eq_true_eq]
          rcases List.mem_cons.1 ha with rfl | ha
          · exact not_lt.2 h
          · exact not_lt.2 (le_trans h (hx a ha))
        rw [hz]
        simp only [List.get]
        have hmem : rest.get ⟨k, Nat.lt_of_succ_lt_succ hk⟩ ∈ rest :=
          List.get_mem _ _ _
        exact iff_of_true (Nat.zero_le _) (le_trans h (hx _ hmem))

theorem searchRight_gt_iff (ts : List ℚ) (t : ℚ) (hs : ts.Pairwise (· ≤ ·)) :
    ∀ k (hk : k < ts.length), (k < searchRight ts t ↔ ts.get ⟨k, hk⟩ ≤ t) := by
  induction ts with
  | nil => intro k hk; simp at hk
  | cons x rest ih =>
    rw [List.pairwise_cons] at hs
    obtain ⟨hx, hrest⟩ := hs
    intro k hk
    have hzlem : t < x → searchRight (x :: rest) t = 0 := by
      intro h
      rw [searchRight, List.countP_eq_zero]
      intro a ha
      simp only [decide_eq_true_eq]
      rcases List.mem_cons.1 ha with rfl | ha
      · exact not_le.2 h
      · exact not_le.2 (lt_of_lt_of_le h (hx a ha))
    rcases k with _ | k
    · rcases le_or_lt x t with h | h
      · have hpos : 0 < searchRight (x :: rest) t :=
          List.countP_pos_iff.2 ⟨x, List.mem_cons_self x rest, decide_eq_true h⟩
        simp only [List.get]
        exact iff_of_true hpos h
      · rw [hzlem h]
        simp only [List.get]
        simp [not_le.2 h]
    · rcases le_or_lt x t with h | h
      · have : searchRight (x :: rest) t = searchRight rest t + 1 := by
          simp [searchRight, List.countP_cons, h]
        rw [this]
        simp only [List.get]
        rw [Nat.succ_lt_succ_iff]
        exact ih hrest k (Nat.lt_of_succ_lt_succ hk)
      · rw [hzlem h]
        simp only [List.get]
        have hmem : rest.get ⟨k, Nat.lt_of_succ_lt_succ hk⟩ ∈ rest :=
          List.get_mem _ _ _
        exact iff_of_false (by omega) (not_le.2 (lt_of_lt_of_le h (hx _ hmem)))

theorem searchRight_le_length (ts : List ℚ) (t : ℚ) :
    searchRight ts t ≤ ts.length :=
  List.countP_le_length _

/-- Shape of a successful alignment: the marker span exists, the window is
nonempty, and the Recording is the cropped data. -/
theorem alignCrop_ok_shape (data : List (List ℚ)) (eegTs mkTs : List ℚ)
    (rec : Recording) (hok : alignCrop data eegTs mkTs = .ok rec) :
    ∃ t0 tE, mkTs.head? = some t0 ∧ mkTs.getLast? = some tE ∧
      searchLeft eegTs t0 < searchRight eegTs tE ∧
      rec = ⟨data.map (fun row =>
               (row.drop (searchLeft eegTs t0)).take
                 (searchRight eegTs tE - searchLeft eegTs t0)),
             (eegTs.drop (searchLeft eegTs t0)).take
               (searchRight eegTs tE - searchLeft eegTs t0),
             ((eegTs.drop (searchLeft eegTs t0)).take
               (searchRight eegTs tE - searchLeft eegTs t0)).headD 0⟩ := by
  unfold alignCrop at hok
  split at hok
  next t0 tE h0 hE =>
    split at hok
    next hij =>
      injection hok with h
      exact ⟨t0, tE, h0, hE, hij, h.symm⟩
    next hij =>
      exact absurd hok (by simp)
  next h =>
    exact absurd hok (by simp)

/-- A nonempty crop window yields a nonempty cropped list. -/
theorem cropped_ne_nil (ts : List ℚ) (i j : Nat) (hij : i < j)
    (hj : j ≤ ts.length) : (ts.drop i).take (j - i) ≠ [] := by
  have hlen : ((ts.drop i).take (j - i)).length = min (j - i) (ts.length - i) := by
    simp [List.length_take, List.length_drop]
  intro h
  rw [h] at hlen
  simp only [List.length_nil] at hlen
  omega

/-- C3: on a sorted bioelectric timestamp vector, a successful alignment
crops data and timestamps to the window `[searchLeft t0, searchRight tE)`
determined by the marker span `[t0, tE]`; a sample index is at or past the
left bound exactly when its timestamp is at or after `t0`, it is below the
right bound exactly when its timestamp is at or below `tE`, and the first
cropped timestamp is the Recording's time origin. -/
theorem c3_crop_window (data : List (List ℚ)) (eegTs mkTs : List ℚ) (t0 tE : ℚ)
    (hs : eegTs.Pairwise (· ≤ ·))
    (h0 : mkTs.head? = some t0) (hE : mkTs.getLast? = some tE)
    (rec : Recording) (hok : alignCrop data eegTs mkTs = .ok rec) :
    rec.timeStamps = (eegTs.drop (searchLeft eegTs t0)).take
        (searchRight eegTs tE - searchLeft eegTs t0)
    ∧ rec.data = data.map (fun row => (row.drop (searchLeft eegTs t0)).take
        (searchRight eegTs tE - searchLeft eegTs t0))
    ∧ (∀ k (hk : k < eegTs.length),
        (searchLeft eegTs t0 ≤ k ∧ k < searchRight eegTs tE)
          ↔ (t0 ≤ eegTs.get ⟨k, hk⟩ ∧ k < searchRight eegTs tE))
    ∧ (∀ k (hk : k < eegTs.length),
        k < searchRight eegTs tE ↔ eegTs.get ⟨k, hk⟩ ≤ tE)
    ∧ rec.timeStamps.head? = some rec.timeOrigin := by
  obtain ⟨t0x, tEx, h0x, hEx, hij, hrec⟩ := alignCrop_ok_shape data eegTs mkTs rec hok
  rw [h0] at h0x
  rw [hE] at hEx
  injection h0x with h0x
  injection hEx with hEx
  subst h0x; subst hEx; subst hrec
  have hne : ((eegTs.drop (searchLeft eegTs t0)).take
      (searchRight eegTs tE - searchLeft eegTs t0)) ≠ [] :=
    cropped_ne_nil eegTs _ _ hij (searchRight_le_length eegTs tE)
  refine ⟨rfl, rfl, ?_, ?_, ?_⟩
  · intro k hk
    constructor
    · rintro ⟨hl, hr⟩
      exact ⟨(searchLeft_le_iff eegTs t0 hs k hk).1 hl, hr⟩
    · rintro ⟨hl, hr⟩
      exact ⟨(searchLeft_le_iff eegTs t0 hs k hk).2 hl, hr⟩
  · intro k hk
    exact searchRight_gt_iff eegTs tE hs k hk
  · rcases hcts : (eegTs.drop (searchLeft eegTs t0)).take
        (searchRight eegTs tE - searchLeft eegTs t0) with _ | ⟨a, l⟩
    · exact absurd hcts hne
    · simp [hcts]

/-- C3 witness: a concrete aligned file. With bioelectric timestamps
`[0, 1, 2, 3]` and marker timestamps `[1, 2]`, the crop window is indices
`[1, 3)`, the cropped timestamps are `[1, 2]` and the time origin is `1`. -/
theorem c3_crop_window_witness :
    (⟨[[11, 12]], [1, 2], 1⟩ : Recording).timeStamps =
        (([0, 1, 2, 3] : List ℚ).drop (searchLeft [0, 1, 2, 3] 1)).take
          (searchRight [0, 1, 2, 3] 2 - searchLeft [0, 1, 2, 3] 1)
    ∧ (⟨[[11, 12]], [1, 2], 1⟩ : Recording).data =
        [[(10 : ℚ), 11, 12, 13]].map (fun row =>
          (row.drop (searchLeft [0, 1, 2, 3] 1)).take
            (searchRight [0, 1, 2, 3] 2 - searchLeft [0, 1, 2, 3] 1))
    ∧ (∀ k (hk : k < ([0, 1, 2, 3] : List ℚ).length),
        (searchLeft [0, 1, 2, 3] 1 ≤ k ∧ k < searchRight [0, 1, 2, 3] 2)
          ↔ ((1 : ℚ) ≤ ([0, 1, 2, 3] : List ℚ).get ⟨k, hk⟩
              ∧ k < searchRight [0, 1, 2, 3] 2))
    ∧ (∀ k (hk : k < ([0, 1, 2, 3] : List ℚ).length),
        k < searchRight [0, 1, 2, 3] 2
          ↔ ([0, 1, 2, 3] : List ℚ).get ⟨k, hk⟩ ≤ 2)
    ∧ (⟨[[11, 12]], [1, 2], 1⟩ : Recording).timeStamps.head? =
        some (⟨[[11, 12]], [1, 2], 1⟩ : Recording).timeOrigin :=
  c3_crop_window [[10, 11, 12, 13]] [0, 1, 2, 3] [1, 2] 1 2
    (by decide) (by decide) (by decide) ⟨[[11, 12]], [1, 2], 1⟩ rfl

/-- C4: when the computed crop window is empty (the right-biased index of the
span end is at or below the left-biased index of the span start, which covers
every pair of streams with disjoint time spans), the aligner reports
`AlignmentEmptyError`; and a successful alignment never carries an empty
timestamp vector. -/
theorem c4_alignment_empty (data : List (List ℚ)) (eegTs mkTs : List ℚ) :
    ((∀ t0 ∈ mkTs.head?, ∀ tE ∈ mkTs.getLast?,
        searchRight eegTs tE ≤ searchLeft eegTs t0) →
      alignCrop data eegTs mkTs = .error .alignmentEmpty)
    ∧ ∀ rec : Recording, alignCrop data eegTs mkTs = .ok rec →
        rec.timeStamps ≠ [] := by
  constructor
  · intro hdisj
    unfold alignCrop
    split
    next t0 tE h0 hE =>
      rw [if_neg]
      exact not_lt.2 (hdisj t0 (by rw [h0]; rfl) tE (by rw [hE]; rfl))
    next h =>
      rfl
  · intro rec hok
    obtain ⟨t0, tE, h0, hE, hij, hrec⟩ := alignCrop_ok_shape data eegTs mkTs rec hok
    subst hrec
    exact cropped_ne_nil eegTs _ _ hij (searchRight_le_length eegTs tE)

/-- C4 witness: the spec's disjoint-span example — a bioelectric stream
spanning 0 to 10 seconds and a marker stream spanning 20 to 30 seconds yield
the alignment-empty error. -/
theorem c4_alignment_empty_witness :
    alignCrop [[(0 : ℚ), 0, 0, 0, 0, 0, 0, 0, 0, 0, 0]]
        [0, 1, 2, 3, 4, 5, 6, 7, 8, 9, 10] [20, 30] = .error .alignmentEmpty :=
  (c4_alignment_empty [[(0 : ℚ), 0, 0, 0, 0, 0, 0, 0, 0, 0, 0]]
      [0, 1, 2, 3, 4, 5, 6, 7, 8, 9, 10] [20, 30]).1 (by decide)

/-! ## Annotation extractor and payload parser (modelled from the spec) -/

/-- The opening delimiter of the fixed event-code pattern. -/
def openT : List Char := "<ecode>".data

/-- The closing delimiter of the fixed event-code pattern. -/
def closeT : List Char := "</ecode>".data

/-- Modelled from the spec: read a nonempty digit run terminated by the
closing delimiter at the head of `l`. -/
def ecodeHere (l : List Char) : Option (List Char) :=
  if l.takeWhile Char.isDigit ≠ [] ∧ closeT.isPrefixOf (l.dropWhile Char.isDigit) then
    some (l.takeWhile Char.isDigit)
  else none

/-- Modelled from the spec: first-occurrence search for the fixed delimiter
pattern of §4.5 (the regex of the pipeline variant absent from the provided
sources), returning the embedded digit code. -/
def findEcode : List Char → Option (List Char)
  | [] => none
  | c :: rest =>
    if openT.isPrefixOf (c :: rest) then
      match ecodeHere ((c :: rest).drop openT.length) with
      | some ds => some ds
      | none => findEcode rest
    else findEcode rest

/-- Modelled from the spec: the description normalization of §4.5 — an
embedded numeric event code becomes an `Event_` label, otherwise the payload
text is used verbatim. -/
def describePayload (p : List Char) : List Char :=
  match findEcode p with
  | some code => "Event_".data ++ code
  | none => p

/-- An annotation of the spec's data model (§3): onset, duration,
description. -/
structure Annot where
  onset : ℚ
  dur : ℚ
  desc : List Char
deriving DecidableEq

/-- Modelled from the spec: the Annotation Extractor of §4.5, absent from the
provided sources. Each marker yields `onset = timestamp - time_origin`,
markers with onset outside the recording span are discarded, duration is
zero, and the description is the normalized payload. -/
def extractAnnots (mkTs : List ℚ) (payloads : List (List Char))
    (origin dur : ℚ) : List Annot :=
  (mkTs.zip payloads).filterMap (fun q =>
    if 0 ≤ q.1 - origin ∧ q.1 - origin ≤ dur then
      some ⟨q.1 - origin, 0, describePayload q.2⟩
    else none)

theorem takeWhile_digit_run (d : List Char) (c0 : Char) (tail : List Char)
    (hd : ∀ c ∈ d, c.isDigit = true) (hc0 : c0.isDigit = false) :
    (d ++ c0 :: tail).takeWhile Char.isDigit = d
    ∧ (d ++ c0 :: tail).dropWhile Char.isDigit = c0 :: tail := by
  induction d with
  | nil =>
    simp [List.takeWhile_cons, List.dropWhile_cons, hc0]
  | cons x xs ih =>
    have hx : x.isDigit = true := hd x (List.mem_cons_self _ _)
    have hxs : ∀ c ∈ xs, c.isDigit = true := fun c hc => hd c (List.mem_cons_of_mem _ hc)
    obtain ⟨h1, h2⟩ := ih hxs
    simp [List.takeWhile_cons, List.dropWhile_cons, hx, h1, h2]

theorem ecodeHere_some (l ds : List Char) (h : ecodeHere l = some ds) :
    ds ≠ [] ∧ (∀ c ∈ ds, c.isDigit = true) ∧ ∃ b, l = ds ++ closeT ++ b := by
  unfold ecodeHere at h
  split at h
  next hcond =>
    obtain ⟨htw, hpre⟩ := hcond
    injection h with h
    subst h
    refine ⟨htw, fun c hc => List.mem_takeWhile_imp hc, ?_⟩
    obtain ⟨b, hb⟩ := List.isPrefixOf_iff_prefix.1 hpre
    have hdec : List.takeWhile Char.isDigit l ++ (closeT ++ b) = l := by
      rw [hb]
      exact List.takeWhile_append_dropWhile Char.isDigit l
    refine ⟨b, ?_⟩
    rw [List.append_assoc]
    exact hdec.symm
  next =>
    exact absurd h (by simp)

theorem ecodeHere_of_run (d b : List Char) (hd : ∀ c ∈ d, c.isDigit = true)
    (hne : d ≠ []) : ecodeHere (d ++ closeT ++ b) = some d := by
  have hc0 : Char.isDigit '<' = false := rfl
  have hsplit := takeWhile_digit_run d '<' ("/ecode>".data ++ b) hd hc0
  have harr : d ++ closeT ++ b = d ++ '<' :: ("/ecode>".data ++ b) := by
    simp [closeT]
  rw [ecodeHere, harr, hsplit.1, hsplit.2]
  rw [if_pos]
  constructor
  · exact hne
  · rw [List.isPrefixOf_iff_prefix]
    refine ⟨b, ?_⟩
    simp [closeT]

theorem findEcode_some_of_pattern (p : List Char) :
    ∀ a d b : List Char,
      p = a ++ openT ++ d ++ closeT ++ b → d ≠ [] →
      (∀ c ∈ d, c.isDigit = true) →
      ∃ code, findEcode p = some code ∧ code ≠ [] ∧ ∀ c ∈ code, c.isDigit = true := by
  induction p with
  | nil =>
    intro a d b hp hne hdig
    have : ([] : List Char).length = (a ++ openT ++ d ++ closeT ++ b).length := by rw [hp]
    simp [openT, closeT] at this
    omega
  | cons c rest ih =>
    intro a d b hp hne hdig
    rcases a with _ | ⟨c0, a0⟩
    · have hp2 : c :: rest = openT ++ (d ++ closeT ++ b) := by
        rw [hp]; simp
      have hpre : openT.isPrefixOf (c :: rest) = true := by
        rw [List.isPrefixOf_iff_prefix, hp2]
        exact List.prefix_append _ _
      have hdrop : (c :: rest).drop openT.length = d ++ closeT ++ b := by
        rw [hp2]
        exact List.drop_left _ _
      refine ⟨d, ?_, hne, hdig⟩
      rw [findEcode, if_pos hpre, hdrop, ecodeHere_of_run d b hdig hne]
    · have hc : c = c0 ∧ rest = a0 ++ openT ++ d ++ closeT ++ b := by
        have := hp
        simp only [List.cons_append, List.append_assoc] at this ⊢
        injection this with h1 h2
        exact ⟨h1, h2⟩
      obtain ⟨rfl, hrest⟩ := hc
      rw [findEcode]
      by_cases hpre : openT.isPrefixOf (c :: rest) = true
      · rw [if_pos hpre]
        rcases hec : ecodeHere ((c :: rest).drop openT.length) with _ | ds
        · obtain ⟨code, hcode, hcne, hcdig⟩ := ih a0 d b hrest hne hdig
          exact ⟨code, hcode, hcne, hcdig⟩
        · obtain ⟨h1, h2, _⟩ := ecodeHere_some _ _ hec
          exact ⟨ds, rfl, h1, h2⟩
      · rw [if_neg hpre]
        exact ih a0 d b hrest hne hdig

theorem pattern_of_findEcode_some (p : List Char) :
    ∀ code : List Char, findEcode p = some code →
      (∃ a b, p = a ++ openT ++ code ++ closeT ++ b)
      ∧ code ≠ [] ∧ ∀ c ∈ code, c.isDigit = true := by
  induction p with
  | nil =>
    intro code h
    exact absurd h (by rw [findEcode]; simp)
  | cons c rest ih =>
    intro code h
    rw [findEcode] at h
    by_cases hpre : openT.isPrefixOf (c :: rest) = true
    · rw [if_pos hpre] at h
      rcases hec : ecodeHere ((c :: rest).drop openT.length) with _ | ds
      · rw [hec] at h
        obtain ⟨⟨a, b, hab⟩, hne, hdig⟩ := ih code h
        exact ⟨⟨c :: a, b, by simp [hab]⟩, hne, hdig⟩
      · rw [hec] at h
        injection h with h
        subst h
        obtain ⟨hne, hdig, b, hb⟩ := ecodeHere_some _ _ hec
        obtain ⟨tail, htail⟩ := List.isPrefixOf_iff_prefix.1 hpre
        have hdrop : (c :: rest).drop openT.length = tail := by
          rw [← htail]
          exact List.drop_left _ _
        rw [hdrop] at hb
        refine ⟨⟨[], b, ?_⟩, hne, hdig⟩
        rw [List.nil_append, ← htail, hb]
        simp
    · rw [if_neg hpre] at h
      obtain ⟨⟨a, b, hab⟩, hne, hdig⟩ := ih code h
      exact ⟨⟨c :: a, b, by simp [hab]⟩, hne, hdig⟩

/-! ## Amplitude-unit heuristic (modelled from the spec) -/

/-- Maximum absolute value over a sample matrix, mirroring
`np.max(np.abs(data))` (zero for an empty matrix). -/
def maxAbs (m : List (List ℚ)) : ℚ :=
  ((m.map (fun row => row.map (fun x => |x|))).flatten).foldl max 0

/-- Modelled from the spec: the amplitude-unit heuristic of §4.6, absent from
the provided sources — when the cropped sample matrix's maximum absolute
value exceeds `1e-3`, every sample is multiplied by `1e-6` once; otherwise
the matrix is left untouched. -/
def scaleHeuristic (m : List (List ℚ)) : List (List ℚ) :=
  if 1 / 1000 < maxAbs m then
    m.map (fun row => row.map (fun x => x * (1 / 1000000)))
  else m

/-- C5: an annotation is produced for exactly the markers whose onset
(timestamp minus time origin) lies inside the recording span, the produced
onsets are those shifted timestamps in order, and every produced annotation
has onset inside the span and zero duration. -/
theorem c5_onset_filter (mkTs : List ℚ) (payloads : List (List Char))
    (origin dur : ℚ) (hlen : payloads.length = mkTs.length) :
    (extractAnnots mkTs payloads origin dur).map Annot.onset
      = (mkTs.map (fun t => t - origin)).filter
          (fun o => decide (0 ≤ o ∧ o ≤ dur))
    ∧ ∀ a ∈ extractAnnots mkTs payloads origin dur,
        0 ≤ a.onset ∧ a.onset ≤ dur ∧ a.dur = 0 := by
  constructor
  · induction mkTs generalizing payloads with
    | nil => simp [extractAnnots]
    | cons t ts ih =>
      rcases payloads with _ | ⟨p, ps⟩
      · simp at hlen
      · simp only [List.length_cons, Nat.add_right_cancel_iff] at hlen
        rw [extractAnnots, List.zip_cons_cons, List.filterMap_cons]
        by_cases hc : 0 ≤ t - origin ∧ t - origin ≤ dur
        · rw [if_pos hc]
          simp only [List.map_cons, List.filter_cons, decide_eq_true hc]
          rw [← extractAnnots]
          rw [ih ps hlen]
          simp
        · rw [if_neg hc]
          simp only [List.map_cons, List.filter_cons, decide_eq_false hc]
          rw [← extractAnnots]
          rw [ih ps hlen]
          simp
  · intro a ha
    rw [extractAnnots] at ha
    obtain ⟨q, _, hq⟩ := List.mem_filterMap.1 ha
    by_cases hc : 0 ≤ q.1 - origin ∧ q.1 - origin ≤ dur
    · rw [if_pos hc] at hq
      injection hq with hq
      subst hq
      exact ⟨hc.1, hc.2, rfl⟩
    · rw [if_neg hc] at hq
      exact absurd hq (by simp)

/-- C5 witness: the spec's worked example — marker timestamps `[2, 5, 50]`
against time origin `1` and duration `40` yield onsets `[1, 4]`, the marker
at `50` being dropped. -/
theorem c5_onset_filter_witness :
    (extractAnnots [2, 5, 50] ["m".data, "m".data, "m".data] 1 40).map Annot.onset
      = [1, 4] := by
  rw [(c5_onset_filter [2, 5, 50] ["m".data, "m".data, "m".data] 1 40 rfl).1]
  norm_num [List.filter]

/-- C6: when a payload contains the fixed delimiter pattern around a nonempty
digit run, the description is an `Event_` label built from a nonempty digit
code; otherwise the description is the literal payload, verbatim. -/
theorem c6_payload_description (p : List Char) :
    ((∃ a d b, p = a ++ openT ++ d ++ closeT ++ b
        ∧ d ≠ [] ∧ ∀ c ∈ d, c.isDigit = true) →
      ∃ code, describePayload p = "Event_".data ++ code
        ∧ code ≠ [] ∧ ∀ c ∈ code, c.isDigit = true)
    ∧ ((¬ ∃ a d b, p = a ++ openT ++ d ++ closeT ++ b
        ∧ d ≠ [] ∧ ∀ c ∈ d, c.isDigit = true) →
      describePayload p = p) := by
  constructor
  · rintro ⟨a, d, b, hp, hne, hdig⟩
    obtain ⟨code, hcode, hcne, hcdig⟩ := findEcode_some_of_pattern p a d b hp hne hdig
    refine ⟨code, ?_, hcne, hcdig⟩
    rw [describePayload, hcode]
  · intro hno
    rcases hfe : findEcode p with _ | code
    · rw [describePayload, hfe]
    · obtain ⟨⟨a, b, hab⟩, hne, hdig⟩ := pattern_of_findEcode_some p code hfe
      exact absurd ⟨a, code, b, hab, hne, hdig⟩ hno

/-- C6 witness: the spec's examples — an `ecode`-wrapped `17` becomes
`Event_17`, a plain `button_press` payload is unchanged. -/
theorem c6_payload_description_witness :
    describePayload "<ecode>17</ecode>".data = "Event_17".data
    ∧ describePayload "button_press".data = "button_press".data := by
  constructor
  · obtain ⟨code, hcode, hcne, hcdig⟩ :=
      (c6_payload_description ("<ecode>17</ecode>".data)).1
        ⟨[], "17".data, [], by decide, by decide, by decide⟩
    exact (by decide : describePayload "<ecode>17</ecode>".data = "Event_17".data)
  · exact (by decide : describePayload "button_press".data = "button_press".data)

theorem getD_map {α β : Type} (f : α → β) (l : List α) (i : Nat) (d : α) :
    (l.map f).getD i (f d) = f (l.getD i d) := by
  induction l generalizing i with
  | nil => cases i <;> simp
  | cons x xs ih => cases i <;> simp [ih]

/-- C7: when the sample matrix's maximum absolute value exceeds `1e-3`,
every sample is multiplied by `1e-6` exactly once; otherwise the matrix is
returned unchanged. -/
theorem c7_amplitude_heuristic (m : List (List ℚ)) :
    ((1 / 1000 < maxAbs m →
        scaleHeuristic m = m.map (fun row => row.map (fun x => x * (1 / 1000000))))
      ∧ (maxAbs m ≤ 1 / 1000 → scaleHeuristic m = m))
    ∧ ∀ i j : Nat,
        ((scaleHeuristic m).getD i []).getD j 0 =
          if 1 / 1000 < maxAbs m then ((m.getD i []).getD j 0) * (1 / 1000000)
          else (m.getD i []).getD j 0 := by
  refine ⟨⟨fun h => by rw [scaleHeuristic, if_pos h],
           fun h => by rw [scaleHeuristic, if_neg (not_lt.2 h)]⟩, ?_⟩
  intro i j
  by_cases h : 1 / 1000 < maxAbs m
  · rw [scaleHeuristic, if_pos h, if_pos h]
    have h1 := getD_map (fun row => row.map (fun x => x * (1 / 1000000))) m i []
    simp only [List.map_nil] at h1
    rw [h1]
    have h2 := getD_map (fun x => x * (1 / 1000000)) (m.getD i []) j 0
    rw [zero_mul] at h2
    rw [h2]
  · rw [scaleHeuristic, if_neg h, if_neg h]

/-- C7 witness: a matrix with maximum absolute value `2e-3` is scaled by
`1e-6`; one with maximum absolute value `5e-7` is left unscaled. -/
theorem c7_amplitude_heuristic_witness :
    scaleHeuristic [[2 / 1000]] =
      [[(2 : ℚ) / 1000]].map (fun row => row.map (fun x => x * (1 / 1000000)))
    ∧ scaleHeuristic [[5 / 10000000]] = [[(5 : ℚ) / 10000000]] :=
  ⟨(c7_amplitude_heuristic [[2 / 1000]]).1.1 (by norm_num [maxAbs, abs_of_nonneg]),
   (c7_amplitude_heuristic [[5 / 10000000]]).1.2 (by norm_num [maxAbs, abs_of_nonneg])⟩

/-- C1 (counterexample): the claim says the first stream matching a role's
substring criterion is selected. In the group pipeline the assignment
`eeg_stream = stream` overwrites earlier matches, so with two eeg-matching
streams the second one is selected, not the first. -/
theorem c1_first_match_counterexample :
    eegMatch ⟨"EEG".data, "first".data, [], 0, [], [], []⟩ = true
    ∧ (⟨"EEG".data, "first".data, [], 0, [], [], []⟩ : XStream)
        ≠ ⟨"EEG".data, "second".data, [], 0, [], [], []⟩
    ∧ (classifyGroup [⟨"EEG".data, "first".data, [], 0, [], [], []⟩,
                      ⟨"EEG".data, "second".data, [], 0, [], [], []⟩]).1
        = some ⟨"EEG".data, "second".data, [], 0, [], [], []⟩ := by
  decide

/-- C1 (amended): in the group pipeline the LAST stream matching a role's
criterion (type or name tag, as one disjunction) is selected — a later match
overwrites an earlier one, and a marker assignment additionally requires the
eeg test to have failed on that stream; in the debugging inspector the FIRST
stream whose type tag matches is selected for each role. -/
theorem c1_last_match_selected (streams : List XStream) :
    (classifyGroup streams).1 = streams.reverse.find? eegMatch
    ∧ (classifyGroup streams).2 = streams.reverse.find? markerOnly
    ∧ (inspectClassify streams).1 = streams.find? typeEeg
    ∧ (inspectClassify streams).2 = streams.find? typeMarker := by
  refine ⟨?_, ?_, rfl, rfl⟩ <;> rw [classifyGroup_spec]

/-- C2 (counterexample): the claim says an unfilled marker role makes
processing of the file fail with no Recording produced. In the source an
unfilled marker role is tolerated: `load_and_prepare_raw` still returns a raw
object (the `if markers_stream:` block is simply skipped). -/
theorem c2_missing_marker_counterexample :
    (classifyGroup [⟨"EEG".data, "x".data, [], 0, [], [], []⟩]).2 = none
    ∧ loadAndPrepareRaw [⟨"EEG".data, "x".data, [], 0, [], [], []⟩] ≠ none := by
  decide

/-- C2 (amended): only an unfilled bioelectric role aborts the file (returns
`none`, no Recording); when the bioelectric role is filled and the marker role
is unfilled, a Recording is still produced, with an empty annotation list. -/
theorem c2_missing_stream_behavior (streams : List XStream) :
    ((classifyGroup streams).1 = none → loadAndPrepareRaw streams = none)
    ∧ ∀ e : XStream, (classifyGroup streams).1 = some e →
        (classifyGroup streams).2 = none →
        loadAndPrepareRaw streams = some ⟨e.chLabels, e.srate, e.samples.transpose, []⟩ := by
  rcases hc : classifyGroup streams with ⟨e?, m?⟩
  refine ⟨fun h1 => ?_, fun e h1 h2 => ?_⟩
  · simp only at h1
    subst h1
    simp [loadAndPrepareRaw, hc]
  · simp only at h1 h2
    subst h1; subst h2
    simp [loadAndPrepareRaw, hc]

/-- C2 witness: concrete instance of the amended theorem on a one-stream list
holding only an eeg stream. -/
theorem c2_missing_stream_behavior_witness :
    loadAndPrepareRaw [⟨"EEG".data, "x".data, [], 0, [], [], []⟩] =
      some ⟨[], 0, ([] : List (List ℚ)).transpose, []⟩ :=
  (c2_missing_stream_behavior _).2 ⟨"EEG".data, "x".data, [], 0, [], [], []⟩
    (by decide) (by decide)

/-- C10: a stream matching the bioelectric criterion (type or name tag
contains eeg) is never selected for the marker role, even when its tags also
contain marker — the eeg branch is checked first and the marker branch is an
`elif`. -/
theorem c10_eeg_stream_never_marker (streams : List XStream) (s : XStream)
    (hs : eegMatch s = true) : (classifyGroup streams).2 ≠ some s := by
  intro h
  rw [classifyGroup_spec] at h
  simp only at h
  have hq := List.find?_some h
  rw [markerOnly] at hq
  simp [hs] at hq

/-- C10 witness: a stream whose type tag contains both eeg and marker is not
selected for the marker role. -/
theorem c10_eeg_stream_never_marker_witness :
    (classifyGroup [⟨"EEG-Markers".data, "x".data, [], 0, [], [], []⟩]).2
      ≠ some ⟨"EEG-Markers".data, "x".data, [], 0, [], [], []⟩ :=
  c10_eeg_stream_never_marker _ _ (by decide)

/-! ## Analytic montage construction (`Create_montage_PRO-64x.py`) -/

/-- The transcribed manufacturer table `coords_deg` of
`create_prox64_montage` (lines 25–48): channel label to polar angle pair
(theta, phi) in degrees, in dictionary insertion order. -/
def coords_deg : List (String × ℤ × ℤ) :=
  [("Fp1", -90, -72), ("Fp2", 90, 72), ("F3", -60, -51),
   ("F4", 60, 51), ("C3", -45, 0), ("C4", 45, 0),
   ("P3", -60, 51), ("P4", 60, -51), ("O1", -90, 72),
   ("O2", 90, -72), ("F7", -90, -36), ("F8", 90, 36),
   ("T7", -90, 0), ("T8", 90, 0), ("P7", -90, 36),
   ("P8", 90, -36), ("AFz", 67, 90), ("Fz", 45, 90),
   ("Cz", 0, 0), ("Pz", 45, -90), ("FC1", -31, -46),
   ("FC2", 31, 46), ("CP1", -31, 46), ("CP2", 31, -46),
   ("FC5", -69, -21), ("FC6", 69, 21), ("CP5", -69, 21),
   ("CP6", 69, -21), ("FT9", -113, -18), ("FT10", 113, 18),
   ("TP7", -90, 18), ("TP8", 90, -18), ("F1", -49, -68),
   ("F2", 49, 68), ("C1", -23, 0), ("C2", 23, 0),
   ("P1", -49, 68), ("P2", 49, -68), ("AF3", -74, -68),
   ("AF4", 74, 68), ("FC3", -49, -29), ("FC4", 49, 29),
   ("CP3", -49, 29), ("CP4", 49, -29), ("PO3", -74, 68),
   ("PO4", 74, -68), ("F5", -74, -41), ("F6", 74, 41),
   ("C5", -68, 0), ("C6", 68, 0), ("P5", -74, 41),
   ("P6", 74, -41), ("AF7", -90, -54), ("AF8", 90, 54),
   ("FT7", -90, -18), ("FT8", 90, 18), ("TP9", -113, 18),
   ("TP10", 113, -18), ("PO7", -90, 54), ("PO8", 90, -54),
   ("PO9", -113, 54), ("PO10", 113, -54), ("CPz", 22, -90),
   ("POz", 67, -90), ("Fpz", 90, 90), ("FCz", 23, 90)]

/-- The dictionary `pop` plus re-insertion of lines 52–53: the popped entry
keeps its angle pair and is appended at the end under the new key, the
other entries keep their order. -/
def renameEntry (l : List (String × ℤ × ℤ)) (old new : String) :
    List (String × ℤ × ℤ) :=
  match l.find? (fun e => e.1 == old) with
  | some e => l.filter (fun e2 => !(e2.1 == old)) ++ [(new, e.2)]
  | none => l

/-- The table actually converted to Cartesian coordinates: `coords_deg`
after the two documented renames (the DRL and CMS electrodes). -/
def renamedCoords : List (String × ℤ × ℤ) :=
  renameEntry (renameEntry coords_deg "Fpz" "FpCz_DRL") "FCz" "FCz_CMS"

/-- Degree-to-radian conversion `np.deg2rad`. -/
noncomputable def degRad (d : ℤ) : ℝ := (d : ℝ) * (Real.pi / 180)

/-- The spherical-to-Cartesian conversion of lines 56–68:
`x = sin θr cos φr`, `y = sin θr sin φr`, `z = cos θr`. -/
noncomputable def sph2cart (θ φ : ℤ) : ℝ × ℝ × ℝ :=
  (Real.sin (degRad θ) * Real.cos (degRad φ),
   Real.sin (degRad θ) * Real.sin (degRad φ),
   Real.cos (degRad θ))

/-- The DigMontage data of `make_dig_montage` (lines 70–83): channel
positions plus the three idealized fiducial points. -/
structure Montage where
  chPos : List (String × (ℝ × ℝ × ℝ))
  lpa : ℝ × ℝ × ℝ
  rpa : ℝ × ℝ × ℝ
  nasion : ℝ × ℝ × ℝ

/-- Embedding of `create_prox64_montage`: convert every renamed table entry
and place the fiducials on the sphere of radius `0.095` m. -/
noncomputable def create_prox64_montage : Montage :=
  { chPos := renamedCoords.map (fun e => (e.1, sph2cart e.2.1 e.2.2)),
    lpa := (-(19 / 200 : ℝ), 0, 0),
    rpa := ((19 / 200 : ℝ), 0, 0),
    nasion := (0, (19 / 200 : ℝ), 0) }

/-- Position lookup in a montage by channel label. -/
noncomputable def lookupPos (m : Montage) (name : String) : Option (ℝ × ℝ × ℝ) :=
  (m.chPos.find? (fun e => e.1 == name)).map (fun e => e.2)

theorem find_assoc {β : Type} (l : List (String × β)) (name : String) (v : β)
    (hmem : (name, v) ∈ l) (hnd : (l.map Prod.fst).Nodup) :
    l.find? (fun e => e.1 == name) = some (name, v) := by
  induction l with
  | nil => simp at hmem
  | cons x xs ih =>
    rw [List.map_cons, List.nodup_cons] at hnd
    rcases List.mem_cons.1 hmem with rfl | hmem2
    · rw [List.find?_cons_of_pos]
      simp
    · have hx : (x.1 == name) = false := by
        rw [beq_eq_false_iff_ne]
        intro hcon
        exact hnd.1 (hcon ▸ (List.mem_map.2 ⟨(name, v), hmem2, rfl⟩))
      rw [List.find?_cons_of_neg _ (by simp [hx])]
      exact ih hmem2 hnd.2

/-- C8: every renamed table entry is mapped to the Cartesian position
`(sin θr cos φr, sin θr sin φr, cos θr)` of its degree pair; exactly the two
amplifier reference/common-mode entries are renamed, keeping their angle
pairs; and the fiducials sit at `(-r,0,0)`, `(+r,0,0)`, `(0,+r,0)` for the
fixed head radius `r = 0.095`. -/
theorem c8_montage_construction :
    (∀ (name : String) (θ φ : ℤ), (name, θ, φ) ∈ renamedCoords →
      lookupPos create_prox64_montage name =
        some (Real.sin ((θ : ℝ) * (Real.pi / 180)) * Real.cos ((φ : ℝ) * (Real.pi / 180)),
              Real.sin ((θ : ℝ) * (Real.pi / 180)) * Real.sin ((φ : ℝ) * (Real.pi / 180)),
              Real.cos ((θ : ℝ) * (Real.pi / 180))))
    ∧ renamedCoords.map Prod.fst
        = (coords_deg.map Prod.fst).filter
            (fun n => !(n == "Fpz") && !(n == "FCz")) ++ ["FpCz_DRL", "FCz_CMS"]
    ∧ (coords_deg.find? (fun e => e.1 == "Fpz")).map (fun e => e.2) = some (90, 90)
    ∧ (renamedCoords.find? (fun e => e.1 == "FpCz_DRL")).map (fun e => e.2) = some (90, 90)
    ∧ (coords_deg.find? (fun e => e.1 == "FCz")).map (fun e => e.2) = some (23, 90)
    ∧ (renamedCoords.find? (fun e => e.1 == "FCz_CMS")).map (fun e => e.2) = some (23, 90)
    ∧ create_prox64_montage.lpa = (-(19 / 200 : ℝ), 0, 0)
    ∧ create_prox64_montage.rpa = ((19 / 200 : ℝ), 0, 0)
    ∧ create_prox64_montage.nasion = (0, (19 / 200 : ℝ), 0) := by
  refine ⟨?_, by decide, by decide, by decide, by decide, by decide, rfl, rfl, rfl⟩
  intro name θ φ hmem
  have hnd : (renamedCoords.map Prod.fst).Nodup := by decide
  rw [lookupPos]
  show ((renamedCoords.map (fun e => (e.1, sph2cart e.2.1 e.2.2))).find?
      (fun e => e.1 == name)).map (fun e => e.2) = _
  rw [List.find?_map]
  have hfind : renamedCoords.find?
      ((fun e => e.1 == name) ∘ (fun e => (e.1, sph2cart e.2.1 e.2.2)))
      = some (name, θ, φ) := find_assoc renamedCoords name (θ, φ) hmem hnd
  rw [hfind]
  rfl

/-- C8 witness: the vertex electrode Cz, at table angles (0, 0). -/
theorem c8_montage_construction_witness :
    lookupPos create_prox64_montage "Cz" =
      some (Real.sin (((0 : ℤ) : ℝ) * (Real.pi / 180)) * Real.cos (((0 : ℤ) : ℝ) * (Real.pi / 180)),
            Real.sin (((0 : ℤ) : ℝ) * (Real.pi / 180)) * Real.sin (((0 : ℤ) : ℝ) * (Real.pi / 180)),
            Real.cos (((0 : ℤ) : ℝ) * (Real.pi / 180))) :=
  c8_montage_construction.1 "Cz" 0 0 (by decide)

/-! ## Injectivity of the conversion on the cap layout (C9) -/

theorem degRad_inj (x y : ℤ) (h : degRad x = degRad y) : x = y := by
  rw [degRad, degRad] at h
  have hne : (Real.pi / 180) ≠ 0 := by positivity
  have h2 := mul_right_cancel₀ hne h
  exact_mod_cast h2

theorem degRad_zero : degRad 0 = 0 := by
  rw [degRad]
  simp

theorem degRad_neg (x : ℤ) : degRad (-x) = -(degRad x) := by
  rw [degRad, degRad]
  push_cast
  ring

theorem degRad_abs_lt_pi (θ : ℤ) (h1 : -113 ≤ θ) (h2 : θ ≤ 113) :
    |degRad θ| < Real.pi := by
  have hc1 : (-113 : ℝ) ≤ (θ : ℝ) := by exact_mod_cast h1
  have hc2 : ((θ : ℝ)) ≤ 113 := by exact_mod_cast h2
  have hpi := Real.pi_pos
  rw [degRad, abs_mul, abs_of_pos (by positivity : (0 : ℝ) < Real.pi / 180)]
  have habs : |(θ : ℝ)| ≤ 113 := abs_le.2 ⟨hc1, hc2⟩
  calc |(θ : ℝ)| * (Real.pi / 180) ≤ 113 * (Real.pi / 180) := by nlinarith
    _ < Real.pi := by nlinarith

theorem degRad_mem_Icc_phi (φ : ℤ) (h1 : -90 ≤ φ) (h2 : φ ≤ 90) :
    degRad φ ∈ Set.Icc (-(Real.pi / 2)) (Real.pi / 2) := by
  have hc1 : (-90 : ℝ) ≤ (φ : ℝ) := by exact_mod_cast h1
  have hc2 : ((φ : ℝ)) ≤ 90 := by exact_mod_cast h2
  have hpi := Real.pi_pos
  constructor
  · rw [degRad]
    nlinarith
  · rw [degRad]
    nlinarith

/-- Where the spherical-to-Cartesian conversion can identify two angle
pairs inside the table's angle ranges: either the pairs are equal, or both
polar angles are zero, or the pairs are antipodal in the only way the
ranges allow (opposite theta, phi equal to 90 on one side and -90 on the
other). -/
theorem sph2cart_eq_cases (θ1 φ1 θ2 φ2 : ℤ)
    (ht1l : -113 ≤ θ1) (ht1u : θ1 ≤ 113) (ht2l : -113 ≤ θ2) (ht2u : θ2 ≤ 113)
    (hp1l : -90 ≤ φ1) (hp1u : φ1 ≤ 90) (hp2l : -90 ≤ φ2) (hp2u : φ2 ≤ 90)
    (heq : sph2cart θ1 φ1 = sph2cart θ2 φ2) :
    (θ1 = θ2 ∧ φ1 = φ2) ∨ (θ1 = 0 ∧ θ2 = 0)
    ∨ (θ1 = -θ2 ∧ ((φ1 = 90 ∧ φ2 = -90) ∨ (φ1 = -90 ∧ φ2 = 90))) := by
  have hx : Real.sin (degRad θ1) * Real.cos (degRad φ1)
      = Real.sin (degRad θ2) * Real.cos (degRad φ2) := congrArg Prod.fst heq
  have hy : Real.sin (degRad θ1) * Real.sin (degRad φ1)
      = Real.sin (degRad θ2) * Real.sin (degRad φ2) :=
    congrArg (fun p => p.2.1) heq
  have hz : Real.cos (degRad θ1) = Real.cos (degRad θ2) :=
    congrArg (fun p => p.2.2) heq
  have hlt1 := degRad_abs_lt_pi θ1 ht1l ht1u
  have hlt2 := degRad_abs_lt_pi θ2 ht2l ht2u
  have hm1 := degRad_mem_Icc_phi φ1 hp1l hp1u
  have hm2 := degRad_mem_Icc_phi φ2 hp2l hp2u
  have habs : |degRad θ1| = |degRad θ2| := by
    apply Real.injOn_cos ⟨abs_nonneg _, le_of_lt hlt1⟩ ⟨abs_nonneg _, le_of_lt hlt2⟩
    rw [Real.cos_abs, Real.cos_abs]
    exact hz
  rcases abs_eq_abs.1 habs with hA | hA
  · -- equal radian polar angles
    have hth : θ1 = θ2 := degRad_inj _ _ hA
    by_cases hs : Real.sin (degRad θ2) = 0
    · have h20 : degRad θ2 = 0 :=
        (Real.sin_eq_zero_iff_of_lt_of_lt (abs_lt.1 hlt2).1 (abs_lt.1 hlt2).2).1 hs
      have hth2 : θ2 = 0 := degRad_inj _ _ (h20.trans degRad_zero.symm)
      exact Or.inr (Or.inl ⟨hth ▸ hth2, hth2⟩)
    · rw [hA] at hx hy
      have hc : Real.cos (degRad φ1) = Real.cos (degRad φ2) := mul_left_cancel₀ hs hx
      have hsin : Real.sin (degRad φ1) = Real.sin (degRad φ2) := mul_left_cancel₀ hs hy
      have hb : degRad φ1 = degRad φ2 := Real.injOn_sin hm1 hm2 hsin
      exact Or.inl ⟨hth, degRad_inj _ _ hb⟩
  · -- opposite radian polar angles
    by_cases h10 : θ1 = 0
    · have hz1 : degRad θ1 = 0 := by rw [h10]; exact degRad_zero
      have hz2 : degRad θ2 = 0 := by
        rw [hz1] at hA
        linarith [hA]
      exact Or.inr (Or.inl ⟨h10, degRad_inj _ _ (hz2.trans degRad_zero.symm)⟩)
    · have hs1 : Real.sin (degRad θ1) ≠ 0 := by
        intro hcon
        have h0 := (Real.sin_eq_zero_iff_of_lt_of_lt
          (abs_lt.1 hlt1).1 (abs_lt.1 hlt1).2).1 hcon
        exact h10 (degRad_inj _ _ (h0.trans degRad_zero.symm))
      have hA2 : degRad θ2 = -(degRad θ1) := by linarith [hA]
      have hs2 : Real.sin (degRad θ2) = -Real.sin (degRad θ1) := by
        rw [hA2, Real.sin_neg]
      rw [hs2] at hx hy
      have hc : Real.cos (degRad φ1) = -Real.cos (degRad φ2) := by
        apply mul_left_cancel₀ hs1
        rw [show Real.sin (degRad θ1) * -Real.cos (degRad φ2)
            = -Real.sin (degRad θ1) * Real.cos (degRad φ2) by ring]
        exact hx
      have hsn : Real.sin (degRad φ1) = -Real.sin (degRad φ2) := by
        apply mul_left_cancel₀ hs1
        rw [show Real.sin (degRad θ1) * -Real.sin (degRad φ2)
            = -Real.sin (degRad θ1) * Real.sin (degRad φ2) by ring]
        exact hy
      have hc1nn : 0 ≤ Real.cos (degRad φ1) := Real.cos_nonneg_of_mem_Icc hm1
      have hc2nn : 0 ≤ Real.cos (degRad φ2) := Real.cos_nonneg_of_mem_Icc hm2
      have hc10 : Real.cos (degRad φ1) = 0 := by linarith
      have hc20 : Real.cos (degRad φ2) = 0 := by linarith
      have hth : θ1 = -θ2 := degRad_inj _ _ (by rw [degRad_neg]; linarith [hA2])
      have hs1sq : Real.sin (degRad φ1) ^ 2 = 1 := by
        have hpyth := Real.sin_sq_add_cos_sq (degRad φ1)
        rw [hc10] at hpyth
        nlinarith [hpyth]
      have hfac : (Real.sin (degRad φ1) - 1) * (Real.sin (degRad φ1) + 1) = 0 := by
        nlinarith [hs1sq]
      have hpi2mem : Real.pi / 2 ∈ Set.Icc (-(Real.pi / 2)) (Real.pi / 2) :=
        ⟨by linarith [Real.pi_pos], le_refl _⟩
      have hnpi2mem : -(Real.pi / 2) ∈ Set.Icc (-(Real.pi / 2)) (Real.pi / 2) :=
        ⟨le_refl _, by linarith [Real.pi_pos]⟩
      have hdeg90 : degRad 90 = Real.pi / 2 := by
        rw [degRad]
        push_cast
        ring
      rcases mul_eq_zero.1 hfac with hone | hmone
      · have hsb1 : Real.sin (degRad φ1) = 1 := by linarith [sub_eq_zero.1 hone]
        have hsb2 : Real.sin (degRad φ2) = -1 := by
          have := hsn
          rw [hsb1] at this
          linarith
        have hb1 : degRad φ1 = Real.pi / 2 :=
          Real.injOn_sin hm1 hpi2mem (by rw [hsb1, Real.sin_pi_div_two])
        have hb2 : degRad φ2 = -(Real.pi / 2) :=
          Real.injOn_sin hm2 hnpi2mem
            (by rw [hsb2, Real.sin_neg, Real.sin_pi_div_two])
        have hphi1 : φ1 = 90 := degRad_inj _ _ (by rw [hb1, hdeg90])
        have hphi2 : φ2 = -90 := degRad_inj _ _ (by rw [hb2, degRad_neg, hdeg90])
        exact Or.inr (Or.inr ⟨hth, Or.inl ⟨hphi1, hphi2⟩⟩)
      · have hsb1 : Real.sin (degRad φ1) = -1 := by linarith [add_eq_zero_iff_eq_neg.1 hmone]
        have hsb2 : Real.sin (degRad φ2) = 1 := by
          have := hsn
          rw [hsb1] at this
          linarith
        have hb1 : degRad φ1 = -(Real.pi / 2) :=
          Real.injOn_sin hm1 hnpi2mem
            (by rw [hsb1, Real.sin_neg, Real.sin_pi_div_two])
        have hb2 : degRad φ2 = Real.pi / 2 :=
          Real.injOn_sin hm2 hpi2mem (by rw [hsb2, Real.sin_pi_div_two])
        have hphi1 : φ1 = -90 := degRad_inj _ _ (by rw [hb1, degRad_neg, hdeg90])
        have hphi2 : φ2 = 90 := degRad_inj _ _ (by rw [hb2, hdeg90])
        exact Or.inr (Or.inr ⟨hth, Or.inr ⟨hphi1, hphi2⟩⟩)

set_option maxRecDepth 8192 in
/-- C9: the spherical-to-Cartesian conversion is injective on the cap
layout — two table entries with the same produced position are the same
entry (so the position determines, i.e. allows recovering, the original
label and degree pair, and no two distinct channels share a position). -/
theorem c9_position_injective (e1 e2 : String × ℤ × ℤ)
    (h1 : e1 ∈ renamedCoords) (h2 : e2 ∈ renamedCoords)
    (heq : sph2cart e1.2.1 e1.2.2 = sph2cart e2.2.1 e2.2.2) : e1 = e2 := by
  have hbounds : ∀ e ∈ renamedCoords,
      -113 ≤ e.2.1 ∧ e.2.1 ≤ 113 ∧ -90 ≤ e.2.2 ∧ e.2.2 ≤ 90 := by decide
  obtain ⟨hb1a, hb1b, hb1c, hb1d⟩ := hbounds e1 h1
  obtain ⟨hb2a, hb2b, hb2c, hb2d⟩ := hbounds e2 h2
  rcases sph2cart_eq_cases e1.2.1 e1.2.2 e2.2.1 e2.2.2
      hb1a hb1b hb2a hb2b hb1c hb1d hb2c hb2d heq with
    hboth | hzz | hpat
  · have hfact : ∀ x ∈ renamedCoords, ∀ y ∈ renamedCoords,
        x.2.1 = y.2.1 → x.2.2 = y.2.2 → x = y := by decide
    exact hfact e1 h1 e2 h2 hboth.1 hboth.2
  · have hfact : ∀ x ∈ renamedCoords, ∀ y ∈ renamedCoords,
        x.2.1 = 0 → y.2.1 = 0 → x = y := by decide
    exact hfact e1 h1 e2 h2 hzz.1 hzz.2
  · have hfact : ∀ x ∈ renamedCoords, ∀ y ∈ renamedCoords,
        ¬(x.2.1 = -y.2.1 ∧ ((x.2.2 = 90 ∧ y.2.2 = -90)
          ∨ (x.2.2 = -90 ∧ y.2.2 = 90))) := by decide
    exact absurd hpat (hfact e1 h1 e2 h2)

/-- C9 witness: concrete instantiation at the vertex electrode entry. -/
theorem c9_position_injective_witness :
    (("Cz", 0, 0) : String × ℤ × ℤ) = ("Cz", 0, 0) :=
  c9_position_injective ("Cz", 0, 0) ("Cz", 0, 0) (by decide) (by decide) rfl

end MoBI
